import Mathlib

/-!
Verification of the stream-db shared streaming storage engine
(src/persistence/file_persistence.rs and src/persistence/shared_file.rs).

The engine is embedded shallowly and sequentially: the on-disk data file and
metadata file are explicit values, the SharedFile coordination record is a
record of its published size and finished flag, and each Rust operation
becomes a pure state transformer.  u64 arithmetic that can overflow is
modelled with an explicit modulus.
-/

namespace StreamDB

/-- A byte of the data stream; the core treats payload bytes as opaque. -/
abbrev Byte := Nat

/-- Modulus of the 64-bit unsigned offsets and sizes (Rust u64). -/
def U64MOD : Nat := 2 ^ 64

/-- CHUNK_SIZE in file_persistence.rs: 8KB chunks for reading. -/
def CHUNK_SIZE : Nat := 8192

/-- The SharedFile coordination record (shared_file.rs), restricted to the
state the sequential model tracks: the published file_size (AtomicU64) and
the is_finished flag (AtomicBool).  The read-side file handle is modelled by
passing the data-file contents to read_at explicitly, and the notifier by the
blocked outcome of the reader loop. -/
structure Shared where
  file_size : Nat
  finished : Bool
deriving Repr, DecidableEq

/-- SharedFile::new: size 0, not finished. -/
def Shared.init : Shared :=
  { file_size := 0, finished := false }

/-- SharedFile::update_size: store the new size (and notify waiters). -/
def Shared.update_size (s : Shared) (newSize : Nat) : Shared :=
  { s with file_size := newSize }

/-- SharedFile::mark_finished: set the finished flag (and notify waiters). -/
def Shared.mark_finished (s : Shared) : Shared :=
  { s with finished := true }

/-- SharedFile::get_size. -/
def Shared.get_size (s : Shared) : Nat :=
  s.file_size

/-- SharedFile::is_finished. -/
def Shared.is_finished (s : Shared) : Bool :=
  s.finished

/-- SharedFile::read_at on the data-file contents: seek to the offset and read
at most the buffer length; fewer bytes come back when the file is shorter. -/
def read_at (data : List Byte) (offset : Nat) (bufLen : Nat) : List Byte :=
  (data.drop offset).take bufLen

/-- The writer-visible state of one (item_id, version) stream: the on-disk
data-file contents, the on-disk metadata-file contents, the SharedFile record,
and the FileWriter fields current_offset and item_version. -/
structure WState where
  data : List Byte
  meta : String
  shared : Shared
  current_offset : Nat
  item_version : Nat
deriving Repr, DecidableEq

/-- The metadata_format macro: the metadata element, a newline, four spaces of
indent, a version element holding the decimal version, a newline, and the
closing tag. -/
def metadataTemplate (v : Nat) : String :=
  "<metadata>\n    <version>" ++ toString v ++ "</version>\n</metadata>"

/-- Decimal value of a digit string, most significant first. -/
def natOfDigits (s : List Char) : Nat :=
  s.foldl (fun acc c => acc * 10 + (c.toNat - 48)) 0

/-- The u64 parse with unwrap_or 0 applied to the version text: a non-empty
all-digit string within u64 range parses to its value, anything else to 0. -/
def parseU64OrZero (s : List Char) : Nat :=
  if s ≠ [] ∧ s.all Char.isDigit ∧ natOfDigits s < U64MOD then natOfDigits s else 0

/-- Scan for the first occurrence of the pattern and return what follows it,
none when the pattern never occurs. -/
def dropThroughPat (pat : List Char) : List Char → Option (List Char)
  | [] => none
  | c :: rest =>
    if pat.isPrefixOf (c :: rest) then some ((c :: rest).drop pat.length)
    else dropThroughPat pat rest

/-- Characters up to the first occurrence of the pattern, none when the
pattern never occurs. -/
def takeUntilPat (pat : List Char) : List Char → Option (List Char)
  | [] => none
  | c :: rest =>
    if pat.isPrefixOf (c :: rest) then some []
    else (takeUntilPat pat rest).map (fun t => c :: t)

/-- The quick_xml scan in FileWriter::new on the metadata this program writes:
locate the first version element and parse its text, none when no version
element occurs before EOF. -/
def extractVersion (meta : String) : Option Nat :=
  match dropThroughPat ("<version>").data meta.data with
  | none => none
  | some rest => (takeUntilPat ("</version>").data rest).map parseU64OrZero

/-- The version-monotonicity validation block of FileWriter::new applied to
the bytes read back from the metadata file: empty bytes or a file with no
version element admit any version; otherwise the requested version must be
strictly greater than the committed one. -/
def versionCheck (metaBytes : String) (reqVersion : Nat) : Except String Unit :=
  if metaBytes = "" then Except.ok ()
  else
    match extractVersion metaBytes with
    | none => Except.ok ()
    | some cur =>
      if reqVersion ≤ cur then
        Except.error ("Conflict: Version " ++ toString reqVersion ++
          " is not newer than " ++ toString cur)
      else Except.ok ()

/-- FileWriter::new.  The metadata file is opened with the truncate flag set,
so the on-disk metadata contents are emptied before read_to_end runs; the
bytes the validation block then sees are always empty, whatever metaOnDisk
held.  The data file is created, truncated and rewound, and the SharedFile
obtained from the registry starts at size 0, not finished; current_offset is
0. -/
def writerNew (metaOnDisk : Option String) (reqVersion : Nat) : Except String WState :=
  let metaAfterOpen : String := ""
  match versionCheck metaAfterOpen reqVersion with
  | Except.error e => Except.error e
  | Except.ok _ =>
    Except.ok { data := [], meta := metaAfterOpen, shared := Shared.init,
                current_offset := 0, item_version := reqVersion }

/-- Admission as the spec states it, for comparison with writerNew: the
metadata file is opened without truncation, so the validation block reads the
persisted contents and the metadata keeps them on the success path. -/
def writerNewSpec (metaOnDisk : Option String) (reqVersion : Nat) : Except String WState :=
  let metaAfterOpen : String :=
    match metaOnDisk with
    | none => ""
    | some s => s
  match versionCheck metaAfterOpen reqVersion with
  | Except.error e => Except.error e
  | Except.ok _ =>
    Except.ok { data := [], meta := metaAfterOpen, shared := Shared.init,
                current_offset := 0, item_version := reqVersion }

/-- FileWriter::write_chunk success path: append the chunk to the data file,
sync it, advance current_offset by the chunk length (u64 addition), and
publish the new offset through SharedFile::update_size. -/
def writeChunk (s : WState) (chunk : List Byte) : WState :=
  let newOffset := (s.current_offset + chunk.length) % U64MOD
  { s with data := s.data ++ chunk,
           current_offset := newOffset,
           shared := s.shared.update_size newOffset }

/-- FileWriter::commit success path: truncate and rewind the metadata file,
write the metadata_format template for item_version, sync_all, then
SharedFile::mark_finished. -/
def commit (s : WState) : WState :=
  { s with meta := metadataTemplate s.item_version,
           shared := s.shared.mark_finished }

/-- A sequence of successful write_chunk calls. -/
def writerRun (s : WState) (chunks : List (List Byte)) : WState :=
  chunks.foldl writeChunk s

/-- The writer state right after a successful admission for a version. -/
def initW (v : Nat) : WState :=
  { data := [], meta := "", shared := Shared.init, current_offset := 0, item_version := v }

/-- The sizes published by update_size along a sequence of write_chunk calls. -/
def sizesAlong (s : WState) : List (List Byte) → List Nat
  | [] => []
  | c :: cs => (writeChunk s c).shared.file_size :: sizesAlong (writeChunk s c) cs

/-- Outcome of one FileReader::read_chunk call against a fixed snapshot of the
shared state: a returned chunk, the terminal None, or parking forever on the
notifier (in a fixed snapshot no new size or finish can arrive). -/
inductive ReadResult where
  | chunk (bytes : List Byte)
  | eof
  | blocked
deriving Repr, DecidableEq

/-- FileReader::read_chunk evaluated against a fixed snapshot (data-file
contents, published size, finished flag) from the given reader offset.  Below
the published size the reader asks read_at for min CHUNK_SIZE remaining bytes:
a positive read returns those bytes; a zero read loops to the notifier wait,
whose timeout re-check of is_finished returns the terminal None only when
finished.  At or past the published size, finished yields the terminal None
and unfinished parks on the notifier. -/
def readChunkFixed (data : List Byte) (size : Nat) (finished : Bool) (offset : Nat) :
    ReadResult :=
  if offset < size then
    let toRead := min CHUNK_SIZE (size - offset)
    let bytes := read_at data offset toRead
    if 0 < bytes.length then ReadResult.chunk bytes
    else if finished then ReadResult.eof
    else ReadResult.blocked
  else if finished then ReadResult.eof
  else ReadResult.blocked

/-- Repeated read_chunk calls against a fixed snapshot, collecting the chunks,
with fuel bounding the number of calls; the result is some list exactly when
the reader reaches the terminal None within the fuel. -/
def drain (data : List Byte) (size : Nat) (finished : Bool) (offset : Nat) :
    Nat → Option (List (List Byte))
  | 0 => none
  | fuel + 1 =>
    match readChunkFixed data size finished offset with
    | ReadResult.chunk bytes =>
      (drain data size finished (offset + bytes.length) fuel).map (fun rest => bytes :: rest)
    | ReadResult.eof => some []
    | ReadResult.blocked => none

/-- The registry map of shared_file.rs, keyed by item_id and version; the
value type is abstract since the registry never inspects it. -/
abbrev RegMap (α : Type) := List ((String × Nat) × α)

/-- Lookup in the registry map. -/
def lookupKey {α : Type} (m : RegMap α) (key : String × Nat) : Option α :=
  match m with
  | [] => none
  | (k, v) :: rest => if k = key then some v else lookupKey rest key

/-- SharedFileRegistry::get_or_create under the mutex: an existing entry is
returned without running the factory; otherwise the factory runs, a success
is inserted and returned, and a failure is returned with the map untouched.
The Bool records whether the factory ran. -/
def getOrCreate {α : Type} (m : RegMap α) (itemId : String) (version : Nat)
    (factory : Except String α) : Except String α × RegMap α × Bool :=
  match lookupKey m (itemId, version) with
  | some v => (Except.ok v, m, false)
  | none =>
    match factory with
    | Except.error e => (Except.error e, m, true)
    | Except.ok v => (Except.ok v, m ++ [((itemId, version), v)], true)

/-- SharedFileRegistry::get. -/
def registryGet {α : Type} (m : RegMap α) (itemId : String) (version : Nat) : Option α :=
  lookupKey m (itemId, version)

/-- The FileReader fields: the SharedFile reference and the read offset
(current_offset, AtomicU64). -/
structure RState (α : Type) where
  shared : α
  current_offset : Nat
deriving Repr, DecidableEq

/-- FileReader::new: look the pair up in the registry; absence fails with the
not-found error, presence returns a reader at offset 0.  The registry map is
returned alongside to record that get only reads it. -/
def readerNew {α : Type} (m : RegMap α) (itemId : String) (version : Nat) :
    Except String (RState α) × RegMap α :=
  match registryGet m itemId version with
  | some sf => (Except.ok { shared := sf, current_offset := 0 }, m)
  | none => (Except.error ("Item not found"), m)

/-! Helper lemmas about writer runs and the reader loop. -/

/-- A run of write_chunk calls, unfolded one step. -/
theorem writerRun_cons (s : WState) (c : List Byte) (cs : List (List Byte)) :
    writerRun s (c :: cs) = writerRun (writeChunk s c) cs := rfl

/-- State after a run of write_chunk calls that stays within u64 range: the
offset advances by the total chunk length, the data file accumulates the
chunks, metadata, version and finished flag are untouched, and the published
size tracks the offset whenever it did initially. -/
theorem writerRun_state (s : WState) (cs : List (List Byte))
    (hsz : s.shared.file_size = s.current_offset)
    (hlow : s.current_offset + (cs.map List.length).sum < U64MOD) :
    (writerRun s cs).current_offset = s.current_offset + (cs.map List.length).sum ∧
    (writerRun s cs).data = s.data ++ cs.flatten ∧
    (writerRun s cs).meta = s.meta ∧
    (writerRun s cs).item_version = s.item_version ∧
    (writerRun s cs).shared.finished = s.shared.finished ∧
    (writerRun s cs).shared.file_size = (writerRun s cs).current_offset := by
  induction cs generalizing s with
  | nil =>
    simp [writerRun, hsz]
  | cons c cs ih =>
    have hsum : s.current_offset + c.length + (cs.map List.length).sum < U64MOD := by
      simp [List.sum_cons] at hlow
      omega
    have hmod : (s.current_offset + c.length) % U64MOD = s.current_offset + c.length :=
      Nat.mod_eq_of_lt (by omega)
    have hoff : (writeChunk s c).current_offset = s.current_offset + c.length := by
      simp [writeChunk, hmod]
    have hsz2 : (writeChunk s c).shared.file_size = (writeChunk s c).current_offset := by
      simp [writeChunk, Shared.update_size]
    have hlow2 : (writeChunk s c).current_offset + (cs.map List.length).sum < U64MOD := by
      rw [hoff]
      exact hsum
    obtain ⟨h1, h2, h3, h4, h5, h6⟩ := ih (writeChunk s c) hsz2 hlow2
    rw [writerRun_cons]
    refine ⟨?_, ?_, ?_, ?_, ?_, h6⟩
    · rw [h1, hoff]
      simp [List.sum_cons]
      omega
    · rw [h2]
      simp [writeChunk]
    · rw [h3]
      simp [writeChunk]
    · rw [h4]
      simp [writeChunk]
    · rw [h5]
      simp [writeChunk, Shared.update_size]

/-- A positive read comes back whenever the reader offset is below the
published size and the data file holds at least size bytes. -/
theorem readChunkFixed_chunk (data : List Byte) (size : Nat) (finished : Bool)
    (offset : Nat) (hI5 : size ≤ data.length) (hlt : offset < size) :
    readChunkFixed data size finished offset
      = ReadResult.chunk (read_at data offset (min CHUNK_SIZE (size - offset))) ∧
    (read_at data offset (min CHUNK_SIZE (size - offset))).length
      = min CHUNK_SIZE (size - offset) := by
  have hlen : (read_at data offset (min CHUNK_SIZE (size - offset))).length
      = min CHUNK_SIZE (size - offset) := by
    simp only [read_at, List.length_take, List.length_drop]
    simp [CHUNK_SIZE]
    omega
  have hpos : 0 < (read_at data offset (min CHUNK_SIZE (size - offset))).length := by
    rw [hlen]
    simp [CHUNK_SIZE]
    omega
  refine ⟨?_, hlen⟩
  simp only [readChunkFixed, if_pos hlt, if_pos hpos]

/-- Draining a finished snapshot whose published size equals the data length
returns, within data.length - offset + 1 calls, chunks concatenating to the
unread suffix of the data file. -/
theorem drain_complete (data : List Byte) (offset fuel : Nat)
    (hoff : offset ≤ data.length) (hfuel : data.length - offset < fuel) :
    ∃ chunks, drain data data.length true offset fuel = some chunks ∧
      chunks.flatten = data.drop offset := by
  induction fuel generalizing offset with
  | zero => omega
  | succ fuel ih =>
    by_cases hlt : offset < data.length
    · obtain ⟨hstep, hlen⟩ := readChunkFixed_chunk data data.length true offset le_rfl hlt
      have hkpos : 0 < min CHUNK_SIZE (data.length - offset) := by
        simp [CHUNK_SIZE]
        omega
      have hkle : min CHUNK_SIZE (data.length - offset) ≤ data.length - offset :=
        Nat.min_le_right _ _
      obtain ⟨chunks, hd, hj⟩ :=
        ih (offset + min CHUNK_SIZE (data.length - offset)) (by omega) (by omega)
      refine ⟨read_at data offset (min CHUNK_SIZE (data.length - offset)) :: chunks, ?_, ?_⟩
      · rw [drain, hstep]
        simp [hlen, hd]
      · rw [List.flatten_cons, hj, read_at, ← List.drop_drop]
        exact List.take_append_drop _ _
    · have heq : offset = data.length := by omega
      have hstep : readChunkFixed data data.length true offset = ReadResult.eof := by
        simp [readChunkFixed, hlt]
      refine ⟨[], ?_, ?_⟩
      · rw [drain, hstep]
      · rw [heq, List.drop_length]
        rfl

/-- Every size published along a run of write_chunk calls that stays within
u64 range is at least the size published before the run. -/
theorem sizesAlong_lower (s : WState) (cs : List (List Byte))
    (hsz : s.shared.file_size = s.current_offset)
    (hlow : s.current_offset + (cs.map List.length).sum < U64MOD) :
    ∀ y ∈ sizesAlong s cs, s.shared.file_size ≤ y := by
  induction cs generalizing s with
  | nil =>
    intro y hy
    simp [sizesAlong] at hy
  | cons c cs ih =>
    intro y hy
    have hsum : s.current_offset + c.length + (cs.map List.length).sum < U64MOD := by
      simp [List.sum_cons] at hlow
      omega
    have hmod : (s.current_offset + c.length) % U64MOD = s.current_offset + c.length :=
      Nat.mod_eq_of_lt (by omega)
    have hoff : (writeChunk s c).current_offset = s.current_offset + c.length := by
      simp [writeChunk, hmod]
    have hsz2 : (writeChunk s c).shared.file_size = (writeChunk s c).current_offset := by
      simp [writeChunk, Shared.update_size]
    have hstep : s.shared.file_size ≤ (writeChunk s c).shared.file_size := by
      rw [hsz2, hoff, hsz]
      omega
    cases hy with
    | head =>
      exact hstep
    | tail _ hy =>
      have hlow2 : (writeChunk s c).current_offset + (cs.map List.length).sum < U64MOD := by
        rw [hoff]
        exact hsum
      exact le_trans hstep (ih (writeChunk s c) hsz2 hlow2 y hy)

/-- The sizes published along a run of write_chunk calls that stays within
u64 range, together with the starting size, form a non-decreasing list. -/
theorem sizesAlong_pairwise (s : WState) (cs : List (List Byte))
    (hsz : s.shared.file_size = s.current_offset)
    (hlow : s.current_offset + (cs.map List.length).sum < U64MOD) :
    List.Pairwise (fun a b => a ≤ b) (s.shared.file_size :: sizesAlong s cs) := by
  induction cs generalizing s with
  | nil =>
    simp [sizesAlong]
  | cons c cs ih =>
    rw [List.pairwise_cons]
    refine ⟨sizesAlong_lower s (c :: cs) hsz hlow, ?_⟩
    have hsum : s.current_offset + c.length + (cs.map List.length).sum < U64MOD := by
      simp [List.sum_cons] at hlow
      omega
    have hmod : (s.current_offset + c.length) % U64MOD = s.current_offset + c.length :=
      Nat.mod_eq_of_lt (by omega)
    have hsz2 : (writeChunk s c).shared.file_size = (writeChunk s c).current_offset := by
      simp [writeChunk, Shared.update_size]
    have hlow2 : (writeChunk s c).current_offset + (cs.map List.length).sum < U64MOD := by
      simp [writeChunk, hmod]
      exact hsum
    have hunfold : sizesAlong s (c :: cs)
        = (writeChunk s c).shared.file_size :: sizesAlong (writeChunk s c) cs := rfl
    rw [hunfold]
    exact ih (writeChunk s c) hsz2 hlow2

/-! Claim theorems. -/

/-- Claim C1: the claim fails on the code.  FileWriter::new opens the metadata
file with the truncate flag, emptying it before the validation block reads it,
so a writer for version 1 over persisted metadata committing version 1 is
admitted instead of failing with a Conflict; the admission written to the
spec's words rejects the same input with the Conflict message. -/
theorem C1_stale_version_admitted :
    (writerNew (some (metadataTemplate 1)) 1).isOk = true ∧
    writerNewSpec (some (metadataTemplate 1)) 1
      = Except.error ("Conflict: Version 1 is not newer than 1") :=
  ⟨rfl, rfl⟩

/-- Claim C3: the claim fails on the code.  Admission truncates the persisted
metadata in place, so a writer admitted for version 2 over metadata committing
version 1 and then dropped without commit leaves the metadata file empty
rather than holding its prior contents. -/
theorem C3_metadata_not_preserved :
    (writerNew (some (metadataTemplate 1)) 2).map WState.meta = Except.ok ("") ∧
    metadataTemplate 1 ≠ "" :=
  ⟨rfl, by decide⟩

/-- Claim C9: over any sequence of write_chunk calls by the single admitted
writer whose total length stays in u64 range, the sizes passed to update_size,
prefixed with the initial published size, form a non-decreasing list, so
get_size never returns a smaller value after a larger one. -/
theorem C9_size_monotone (chunks : List (List Byte))
    (hnof : (chunks.map List.length).sum < U64MOD) :
    List.Pairwise (fun a b => a ≤ b)
      ((initW 1).shared.file_size :: sizesAlong (initW 1) chunks) := by
  refine sizesAlong_pairwise (initW 1) chunks rfl ?_
  simpa [initW] using hnof

/-- Witness for C9 at a concrete chunk sequence. -/
theorem C9_size_monotone_witness :
    List.Pairwise (fun a b => a ≤ b)
      ((initW 1).shared.file_size :: sizesAlong (initW 1) [[1], [2, 3]]) :=
  C9_size_monotone [[1], [2, 3]] (by decide)

/-- Claim C2: any chunk sequence written through write_chunk (within u64
range) and then committed is read back from offset 0 as chunks whose
concatenation equals the written bytes, reaching the terminal None within
bounded calls. -/
theorem C2_round_trip (written : List (List Byte))
    (hnof : (written.map List.length).sum < U64MOD) :
    (commit (writerRun (initW 1) written)).data = written.flatten ∧
    (commit (writerRun (initW 1) written)).shared.finished = true ∧
    ∃ readBack,
      drain (commit (writerRun (initW 1) written)).data
        (commit (writerRun (initW 1) written)).shared.file_size
        (commit (writerRun (initW 1) written)).shared.finished
        0 (written.flatten.length + 1) = some readBack ∧
      readBack.flatten = written.flatten := by
  have hlow : (initW 1).current_offset + (written.map List.length).sum < U64MOD := by
    simpa [initW] using hnof
  obtain ⟨h1, h2, h3, h4, h5, h6⟩ := writerRun_state (initW 1) written rfl hlow
  have hdata : (commit (writerRun (initW 1) written)).data = written.flatten := by
    have hc : (commit (writerRun (initW 1) written)).data
        = (writerRun (initW 1) written).data := rfl
    rw [hc, h2]
    simp [initW]
  have hsize : (commit (writerRun (initW 1) written)).shared.file_size
      = written.flatten.length := by
    simp only [commit, Shared.mark_finished]
    rw [h6, h1]
    simp [initW, List.length_flatten]
  have hfin : (commit (writerRun (initW 1) written)).shared.finished = true := by
    simp [commit, Shared.mark_finished]
  refine ⟨hdata, hfin, ?_⟩
  rw [hdata, hsize, hfin]
  obtain ⟨chunks, hd, hj⟩ := drain_complete written.flatten 0 (written.flatten.length + 1)
    (Nat.zero_le _) (by omega)
  exact ⟨chunks, hd, by simpa using hj⟩

/-- Witness for C2 at a concrete chunk sequence. -/
theorem C2_round_trip_witness :
    (commit (writerRun (initW 1) [[1, 2], [3]])).data
      = ([[1, 2], [3]] : List (List Byte)).flatten ∧
    (commit (writerRun (initW 1) [[1, 2], [3]])).shared.finished = true ∧
    ∃ readBack,
      drain (commit (writerRun (initW 1) [[1, 2], [3]])).data
        (commit (writerRun (initW 1) [[1, 2], [3]])).shared.file_size
        (commit (writerRun (initW 1) [[1, 2], [3]])).shared.finished
        0 (([[1, 2], [3]] : List (List Byte)).flatten.length + 1) = some readBack ∧
      readBack.flatten = ([[1, 2], [3]] : List (List Byte)).flatten :=
  C2_round_trip [[1, 2], [3]] (by decide)

/-- Claim C4: a successful write_chunk appends the bytes to the data file,
advances current_offset by the chunk length, publishes exactly the new offset
as the size, the published size equals the total bytes written so far, and
reading bytes 0 to that size from the data file returns everything written. -/
theorem C4_write_chunk (chunks : List (List Byte)) (c : List Byte)
    (hnof : (chunks.map List.length).sum + c.length < U64MOD) :
    (writeChunk (writerRun (initW 1) chunks) c).data
      = (writerRun (initW 1) chunks).data ++ c ∧
    (writeChunk (writerRun (initW 1) chunks) c).current_offset
      = (writerRun (initW 1) chunks).current_offset + c.length ∧
    (writeChunk (writerRun (initW 1) chunks) c).shared.file_size
      = (writeChunk (writerRun (initW 1) chunks) c).current_offset ∧
    (writeChunk (writerRun (initW 1) chunks) c).shared.file_size
      = (chunks.map List.length).sum + c.length ∧
    read_at (writeChunk (writerRun (initW 1) chunks) c).data 0
        (writeChunk (writerRun (initW 1) chunks) c).shared.file_size
      = (writeChunk (writerRun (initW 1) chunks) c).data := by
  have hlow : (initW 1).current_offset + (chunks.map List.length).sum < U64MOD := by
    simp [initW]
    omega
  obtain ⟨h1, h2, h3, h4, h5, h6⟩ := writerRun_state (initW 1) chunks rfl hlow
  have hoffrun : (writerRun (initW 1) chunks).current_offset
      = (chunks.map List.length).sum := by
    rw [h1]
    simp [initW]
  have hmod : ((writerRun (initW 1) chunks).current_offset + c.length) % U64MOD
      = (writerRun (initW 1) chunks).current_offset + c.length := by
    rw [hoffrun]
    exact Nat.mod_eq_of_lt hnof
  have hdata2 : (writeChunk (writerRun (initW 1) chunks) c).data = chunks.flatten ++ c := by
    have hc : (writeChunk (writerRun (initW 1) chunks) c).data
        = (writerRun (initW 1) chunks).data ++ c := rfl
    rw [hc, h2]
    simp [initW]
  have hsize4 : (writeChunk (writerRun (initW 1) chunks) c).shared.file_size
      = (chunks.map List.length).sum + c.length := by
    have hc : (writeChunk (writerRun (initW 1) chunks) c).shared.file_size
        = ((writerRun (initW 1) chunks).current_offset + c.length) % U64MOD := rfl
    rw [hc, hmod, hoffrun]
  have hlen : (writeChunk (writerRun (initW 1) chunks) c).data.length
      = (chunks.map List.length).sum + c.length := by
    rw [hdata2]
    simp [List.length_flatten]
  refine ⟨by simp [writeChunk], by simp [writeChunk, hmod], ?_, hsize4, ?_⟩
  · simp [writeChunk, Shared.update_size]
  · rw [read_at, List.drop_zero, hsize4, ← hlen]
    exact List.take_length _

/-- Witness for C4 at a concrete state and chunk. -/
theorem C4_write_chunk_witness :
    (writeChunk (writerRun (initW 1) ([] : List (List Byte))) [7]).data
      = (writerRun (initW 1) ([] : List (List Byte))).data ++ [7] ∧
    (writeChunk (writerRun (initW 1) ([] : List (List Byte))) [7]).current_offset
      = (writerRun (initW 1) ([] : List (List Byte))).current_offset + ([7] : List Byte).length ∧
    (writeChunk (writerRun (initW 1) ([] : List (List Byte))) [7]).shared.file_size
      = (writeChunk (writerRun (initW 1) ([] : List (List Byte))) [7]).current_offset ∧
    (writeChunk (writerRun (initW 1) ([] : List (List Byte))) [7]).shared.file_size
      = (([] : List (List Byte)).map List.length).sum + ([7] : List Byte).length ∧
    read_at (writeChunk (writerRun (initW 1) ([] : List (List Byte))) [7]).data 0
        (writeChunk (writerRun (initW 1) ([] : List (List Byte))) [7]).shared.file_size
      = (writeChunk (writerRun (initW 1) ([] : List (List Byte))) [7]).data :=
  C4_write_chunk [] [7] (by decide)

/-- Claim C5: a successful commit rewrites the metadata file to exactly the
metadata_format template for the committed version and marks the SharedFile
finished; write_chunk never changes the finished flag and admission starts it
at false, so no other success path sets it. -/
theorem C5_commit (s : WState) (c : List Byte) (m : Option String) (v : Nat) (s0 : WState)
    (hadm : writerNew m v = Except.ok s0) :
    (commit s).meta = metadataTemplate s.item_version ∧
    (commit s).shared.finished = true ∧
    (writeChunk s c).shared.finished = s.shared.finished ∧
    s0.shared.finished = false := by
  refine ⟨rfl, rfl, ?_, ?_⟩
  · simp [writeChunk, Shared.update_size]
  · simp [writerNew, versionCheck] at hadm
    rw [← hadm]
    rfl

/-- Witness for C5 at a concrete writer state. -/
theorem C5_commit_witness :
    (commit (initW 1)).meta = metadataTemplate (initW 1).item_version ∧
    (commit (initW 1)).shared.finished = true ∧
    (writeChunk (initW 1) [1]).shared.finished = (initW 1).shared.finished ∧
    (initW 1).shared.finished = false :=
  C5_commit (initW 1) [1] none 1 (initW 1) rfl

/-- Claim C6: under the invariants that the published size is durable (at most
the data length) and the reader offset is at most the size, read_chunk returns
the terminal None exactly when the offset has reached the published size and
the stream is finished; otherwise it returns a chunk or keeps waiting. -/
theorem C6_none_iff_done (data : List Byte) (size : Nat) (finished : Bool) (offset : Nat)
    (hI5 : size ≤ data.length) (hI6 : offset ≤ size) :
    readChunkFixed data size finished offset = ReadResult.eof
      ↔ (offset = size ∧ finished = true) := by
  by_cases hlt : offset < size
  · obtain ⟨hstep, _⟩ := readChunkFixed_chunk data size finished offset hI5 hlt
    rw [hstep]
    constructor
    · intro h
      simp at h
    · intro h
      exact absurd h.1 (by omega)
  · have heq : offset = size := by omega
    subst heq
    cases finished with
    | false => simp [readChunkFixed]
    | true => simp [readChunkFixed]

/-- Witness for C6 at a concrete finished snapshot. -/
theorem C6_none_iff_done_witness :
    readChunkFixed [0] 1 true 1 = ReadResult.eof ↔ (1 = 1 ∧ true = true) :=
  C6_none_iff_done [0] 1 true 1 (by decide) (by decide)

/-- Claim C7: get_or_create returns an existing entry without running the
factory and leaves the map unchanged; on a miss it runs the factory, inserting
and returning a success, or returning a failure verbatim with the map
unchanged. -/
theorem C7_get_or_create {α : Type} (m : RegMap α) (itemId : String) (version : Nat)
    (factory : Except String α) :
    (∀ v, lookupKey m (itemId, version) = some v →
      getOrCreate m itemId version factory = (Except.ok v, m, false)) ∧
    (lookupKey m (itemId, version) = none →
      (∀ v, factory = Except.ok v →
        getOrCreate m itemId version factory
          = (Except.ok v, m ++ [((itemId, version), v)], true)) ∧
      (∀ e, factory = Except.error e →
        getOrCreate m itemId version factory = (Except.error e, m, true))) := by
  refine ⟨?_, ?_⟩
  · intro v hv
    simp [getOrCreate, hv]
  · intro hnone
    refine ⟨?_, ?_⟩
    · intro v hv
      simp [getOrCreate, hnone, hv]
    · intro e he
      simp [getOrCreate, hnone, he]

/-- Witness for C7: creation on an empty registry. -/
theorem C7_get_or_create_witness :
    getOrCreate ([] : RegMap Nat) ("a") 1 (Except.ok 5)
      = (Except.ok 5, [((("a"), 1), 5)], true) :=
  ((C7_get_or_create ([] : RegMap Nat) ("a") 1 (Except.ok 5)).2 rfl).1 5 rfl

/-- Claim C8: FileReader::new fails with the not-found error when the registry
holds no entry for the pair, on success starts the reader at offset 0, and
never modifies the registry. -/
theorem C8_reader_new {α : Type} (m : RegMap α) (itemId : String) (version : Nat) :
    (readerNew m itemId version).2 = m ∧
    (registryGet m itemId version = none →
      (readerNew m itemId version).1 = Except.error ("Item not found")) ∧
    (∀ sf, registryGet m itemId version = some sf →
      (readerNew m itemId version).1
        = Except.ok { shared := sf, current_offset := 0 }) := by
  refine ⟨?_, ?_, ?_⟩
  · rcases hr : registryGet m itemId version with _ | sf
    · simp [readerNew, hr]
    · simp [readerNew, hr]
  · intro hnone
    simp [readerNew, hnone]
  · intro sf hsf
    simp [readerNew, hsf]

/-- Witness for C8: reading a missing item on an empty registry. -/
theorem C8_reader_new_witness :
    (readerNew ([] : RegMap Nat) ("e") 1).1 = Except.error ("Item not found") :=
  (C8_reader_new ([] : RegMap Nat) ("e") 1).2.1 rfl

/-- Claim C10: every chunk returned by read_chunk is non-empty and holds at
most CHUNK_SIZE bytes. -/
theorem C10_chunk_bounds (data : List Byte) (size : Nat) (finished : Bool) (offset : Nat)
    (bytes : List Byte)
    (h : readChunkFixed data size finished offset = ReadResult.chunk bytes) :
    0 < bytes.length ∧ bytes.length ≤ CHUNK_SIZE := by
  simp only [readChunkFixed] at h
  split_ifs at h with h1 h2 h3 h4
  · injection h with hx
    subst hx
    refine ⟨h2, ?_⟩
    simp only [read_at, List.length_take]
    exact le_trans (min_le_left _ _) (min_le_left _ _)

/-- Witness for C10 at a concrete snapshot. -/
theorem C10_chunk_bounds_witness :
    0 < ([1, 2] : List Byte).length ∧ ([1, 2] : List Byte).length ≤ CHUNK_SIZE :=
  C10_chunk_bounds [1, 2] 2 false 0 [1, 2] (by decide)

end StreamDB
